import Mathlib

/-!
Shallow embedding of the chunked-processing and rate-limited-dispatch
pipeline of `src/services/monicaService.js` (monica-file-processor).

Modelling conventions:
* JavaScript timestamps (`Date.now()`) are natural numbers of milliseconds.
  Clock readings taken by the code are supplied as explicit parameters.
* `Math.floor(modelTokenLimit * 0.8)` is modelled as `modelTokenLimit * 4 / 5`
  in natural-number division: for every token limit below 2^52 the IEEE double
  computation agrees with the exact value `⌊4T/5⌋` (0.8 rounds up by ~5.6e-17,
  the product's relative error stays far below the distance of `4T/5` to the
  next integer, whose fractional part is a multiple of 0.2).
* The trigger comparison `fileContent.length / 4 > MAX_TOKENS_PER_CHUNK`
  (exact float division by 4 against an integer) is the integer comparison
  `length > 4 * MAX`.
* `estimatedEndTime` arithmetic (float division) is modelled in ℚ, which the
  float computation approximates.
* The `lastUpdated` field (stamped with `Date.now()` by every
  `updateProgress` call and touched by nothing else) is omitted from the
  state model; no claim concerns it, and the one code path that leaves the
  rest of the state untouched (`cancelProcessing` outside `processing`) also
  performs no `updateProgress` call at all.
* Network interaction is scripted: each outbound attempt consumes the next
  entry of a list of `NetResult`s.  An exhausted script models divergence
  (the unbounded 429 retry loop) and surfaces as `Option.none`.
-/

/-- Status enum of the global progress object
(`idle, processing, completed, error, cancelled`). -/
inductive Status
  | idle
  | processing
  | completed
  | error
  | cancelled
deriving DecidableEq, Repr

/-- One entry of `processingHistory`
(`{file, model, duration, timestamp, success, error?}`). -/
structure HistoryEntry where
  file : String
  model : String
  duration : Nat
  timestamp : Nat
  success : Bool
  errMsg : Option String
deriving DecidableEq, Repr

/-- The global `processingProgress` record (without `lastUpdated`, see the
module comment).  `processedFiles` models the JS `Set` of seen basenames as a
list of distinct names. -/
structure ProgressState where
  currentFile : Option String
  currentFileNumber : Nat
  totalFiles : Nat
  totalChunks : Nat
  processedChunks : Nat
  startTime : Option Nat
  estimatedEndTime : Option ℚ
  status : Status
  error : Option String
  processingHistory : List HistoryEntry
  processedFiles : List String
  cancelled : Bool
deriving DecidableEq, Repr

/-- The idle baseline state installed by `resetProgress`. -/
def resetState : ProgressState :=
  { currentFile := none
    currentFileNumber := 0
    totalFiles := 0
    totalChunks := 0
    processedChunks := 0
    startTime := none
    estimatedEndTime := none
    status := Status.idle
    error := none
    processingHistory := []
    processedFiles := []
    cancelled := false }

/-- `cancelProcessing` (monicaService.js:86-95): only when status is
`processing` does it set `cancelled`, status and the explanatory error;
otherwise it does not call `updateProgress` at all. -/
def cancelProcessing (p : ProgressState) : ProgressState :=
  if p.status = Status.processing then
    { p with cancelled := true
             status := Status.cancelled
             error := some "Processing cancelled by user" }
  else p

/-- A `models.json` entry (`key`, `tokenLimit`, `rpm`, `tpm`; cost fields are
informational and not modelled). -/
structure ModelDescriptor where
  key : String
  tokenLimit : Nat
  rpm : Nat
  tpm : Nat
deriving DecidableEq, Repr

/-- `getModelInfo` (monicaService.js:156-166): `null` for a falsy key,
otherwise exact `find` on `key`. -/
def getModelInfo (registry : List ModelDescriptor) (modelKey : String) :
    Option ModelDescriptor :=
  if modelKey = "" then none
  else registry.find? (fun m => m.key = modelKey)

/-- `getModelTokenLimit` (monicaService.js:173-183): the registry entry's
limit, or the default 100000 on a miss. -/
def getModelTokenLimit (registry : List ModelDescriptor) (modelKey : String) :
    Nat :=
  match getModelInfo registry modelKey with
  | some m => m.tokenLimit
  | none => 100000

/-- Modelled from the spec: the chunk-splitting algorithm of
`processLargeFile` is elided in the source (monicaService.js:427 reads
`// ... [existing chunking code] ...` and `chunks` is never populated there).
Spec §4.4: split the content into ordered pieces of at most
`charsPerChunk = maxTokensPerChunk * 4` characters, total over the input,
falling back to a hard character cut; the sequence is ordered with no gaps
and no overlaps.  This is the hard-cut model: successive slices of at most
`c` characters.  (`max c 1` only guards the degenerate budget 0, which the
pipeline never produces for a positive token budget.) -/
def splitChunksAux (c : Nat) : Nat → List Char → List (List Char)
  | _, [] => []
  | 0, _ :: _ => []
  | fuel + 1, x :: xs =>
      (x :: xs).take (max c 1) :: splitChunksAux c fuel ((x :: xs).drop (max c 1))

/-- Entry point of the spec-modelled chunker: the fuel `l.length` always
suffices, since each step drops at least one character. -/
def splitChunks (c : Nat) (l : List Char) : List (List Char) :=
  splitChunksAux c l.length l

/-- Concatenation of the chunk list. -/
def joinChunks (chunks : List (List Char)) : List Char :=
  chunks.foldr (fun a b => a ++ b) []

theorem splitChunksAux_join (c : Nat) :
    ∀ fuel l, l.length ≤ fuel → joinChunks (splitChunksAux c fuel l) = l := by
  intro fuel
  induction fuel with
  | zero =>
      intro l hl
      have : l = [] := List.length_eq_zero.mp (Nat.le_zero.mp hl)
      subst this
      rfl
  | succ n ih =>
      intro l hl
      cases l with
      | nil => rfl
      | cons x xs =>
          rw [splitChunksAux]
          have hc : 0 < max c 1 := Nat.lt_of_lt_of_le Nat.one_pos (Nat.le_max_right c 1)
          have hlen : ((x :: xs).drop (max c 1)).length ≤ n := by
            rw [List.length_drop, List.length_cons]
            simp only [List.length_cons] at hl
            have h1 : 0 < max c 1 := hc
            generalize max c 1 = m at h1 ⊢
            omega
          have ih2 := ih ((x :: xs).drop (max c 1)) hlen
          simp only [joinChunks, List.foldr_cons] at ih2 ⊢
          rw [ih2]
          exact List.take_append_drop _ _

theorem splitChunks_join (c : Nat) (l : List Char) :
    joinChunks (splitChunks c l) = l :=
  splitChunksAux_join c l.length l (Nat.le_refl _)

theorem splitChunksAux_bound (c : Nat) :
    ∀ fuel l, ∀ ch ∈ splitChunksAux c fuel l, ch.length ≤ max c 1 := by
  intro fuel
  induction fuel with
  | zero =>
      intro l ch hch
      cases l with
      | nil => simp [splitChunksAux] at hch
      | cons x xs => simp [splitChunksAux] at hch
  | succ n ih =>
      intro l ch hch
      cases l with
      | nil => simp [splitChunksAux] at hch
      | cons x xs =>
          rw [splitChunksAux] at hch
          cases hch with
          | head =>
              rw [List.length_take]
              exact min_le_left _ _
          | tail _ hmem => exact ih _ ch hmem

/-- Every produced chunk is at most the character budget, for a positive
budget. -/
theorem splitChunks_bound (c : Nat) (hc : 0 < c) (l : List Char) :
    ∀ ch ∈ splitChunks c l, ch.length ≤ c := by
  intro ch hch
  have h := splitChunksAux_bound c l.length l ch hch
  have hmax : max c 1 = c := Nat.max_eq_left hc
  rw [hmax] at h
  exact h

/-- C2: splitting and re-concatenating the original chunks in source order
reproduces the content exactly: the chunk sequence is total, ordered, with
no gaps and no overlaps.  (Spec-modelled chunker: the splitting code is
elided in the source.) -/
theorem split_roundtrip (content : List Char) (c : Nat)
    (hne : content ≠ []) (hc : 0 < c) :
    joinChunks (splitChunks c content) = content :=
  splitChunks_join c content

/-- Witness for `split_roundtrip` at a concrete non-empty content and a
positive budget. -/
theorem split_roundtrip_witness :
    joinChunks (splitChunks 2 ['a', 'b', 'c', 'd', 'e']) =
      ['a', 'b', 'c', 'd', 'e'] :=
  split_roundtrip ['a', 'b', 'c', 'd', 'e'] 2 (by decide) (by decide)

/-- One model's `rateLimits[modelKey]` record: request timestamps and
`(timestamp, tokenCount)` pairs. Token counts are rationals because the JS
estimates (`length/4`, half of that) are fractional. -/
structure RateWindow where
  requests : List Nat
  tokens : List (Nat × ℚ)
deriving DecidableEq, Repr

/-- The `rateLimits` map, as an association list keyed by model key. -/
abbrev RateState := List (String × RateWindow)

/-- Lookup of `rateLimits[modelKey]`. -/
def RateState.lookup (rl : RateState) (modelKey : String) : Option RateWindow :=
  (List.find? (fun e => e.1 = modelKey) rl).map (fun e => e.2)

/-- Store a window under a key (overwriting an existing entry). -/
def RateState.store (rl : RateState) (modelKey : String) (w : RateWindow) :
    RateState :=
  match rl with
  | [] => [(modelKey, w)]
  | e :: rest =>
      if e.1 = modelKey then (modelKey, w) :: rest
      else e :: RateState.store rest modelKey w

/-- `trackRequest` (monicaService.js:246-267): returns unchanged for a falsy
(empty) model key; otherwise initialises the window if absent and pushes
`now` onto `requests` and `(now, inputTokens + outputTokens)` onto `tokens`.
It never consults the model registry. -/
def trackRequest (now : Nat) (modelKey : String) (inputTokens outputTokens : ℚ)
    (rl : RateState) : RateState :=
  if modelKey = "" then rl
  else
    let w := (rl.lookup modelKey).getD ⟨[], []⟩
    rl.store modelKey
      { requests := w.requests ++ [now]
        tokens := w.tokens ++ [(now, inputTokens + outputTokens)] }

/-- The pruning step of `checkRateLimits` (monicaService.js:206-208):
keep only timestamps strictly newer than `now - 60000`
(`t > now - 60000` over integers, written additively for Nat). -/
def pruneRequests (now : Nat) (reqs : List Nat) : List Nat :=
  reqs.filter (fun t => now < t + 60000)

/-- `checkRateLimits`' admission loop (monicaService.js:190-238), restricted
to one model whose descriptor was found, as a function from the request list
and the current clock to the clock value at which the call returns (the
admission time).  Pruning, the `length >= rpm` test, the wait of
`max(0, oldest + 60000 - now)` (exactly Nat subtraction) and the recursive
re-check are translated directly; the recursion re-runs on the pruned list,
as the code stores the pruned list back before recursing.  `fuel` bounds the
recursion; `none` models a run longer than the supplied fuel. -/
def admitTime (rpm : Nat) : Nat → List Nat → Nat → Option Nat
  | 0, _, _ => none
  | fuel + 1, reqs, now =>
      let pruned := pruneRequests now reqs
      if pruned.length < rpm then some now
      else
        match pruned with
        | [] => none
        | oldest :: rest =>
            admitTime rpm fuel (oldest :: rest) (now + (oldest + 60000 - now))

/-- The back-to-back scenario driver: issue `n` admit calls in sequence,
each immediately followed by recording its admission timestamp (the
back-to-back caller makes the next call at the instant the previous one was
admitted).  Returns the list of recorded timestamps. -/
def runAdmits (rpm fuel : Nat) : Nat → List Nat → Nat → Option (List Nat)
  | 0, reqs, _ => some reqs
  | n + 1, reqs, now =>
      match admitTime rpm fuel reqs now with
      | none => none
      | some t => runAdmits rpm fuel n (reqs ++ [t]) t

theorem prune_replicate (k now0 : Nat) :
    pruneRequests now0 (List.replicate k now0) = List.replicate k now0 := by
  rw [pruneRequests, List.filter_eq_self]
  intro a ha
  have h := List.eq_of_mem_replicate ha
  subst h
  simp

theorem prune_expired (k now0 : Nat) :
    pruneRequests (now0 + 60000) (List.replicate k now0) = [] := by
  rw [pruneRequests, List.filter_eq_nil_iff]
  intro a ha
  have h := List.eq_of_mem_replicate ha
  subst h
  simp

theorem admit_immediate (R k now0 fuel : Nat) (hk : k < R) :
    admitTime R (fuel + 1) (List.replicate k now0) now0 = some now0 := by
  rw [admitTime]
  simp [prune_replicate, hk]

theorem admit_full (R now0 fuel : Nat) (hR : 0 < R) :
    admitTime R (fuel + 2) (List.replicate R now0) now0 = some (now0 + 60000) := by
  obtain ⟨R', rfl⟩ : ∃ R', R = R' + 1 := ⟨R - 1, by omega⟩
  rw [show fuel + 2 = (fuel + 1) + 1 from rfl, admitTime]
  simp only [prune_replicate, List.length_replicate, Nat.lt_irrefl, if_false]
  simp only [List.replicate_succ]
  have hnow : now0 + (now0 + 60000 - now0) = now0 + 60000 := by omega
  rw [hnow, ← List.replicate_succ, admitTime]
  simp only [prune_expired, List.length_nil]
  simp [hR]

theorem runAdmits_fill (R now0 : Nat) (hR : 0 < R) :
    ∀ n k, k ≤ R → k + n = R + 1 →
      runAdmits R 2 n (List.replicate k now0) now0 =
        some (List.replicate R now0 ++ [now0 + 60000]) := by
  intro n
  induction n with
  | zero => intro k hk hkn; omega
  | succ m ih =>
      intro k hk hkn
      by_cases hlt : k < R
      · rw [runAdmits, admit_immediate R k now0 1 hlt]
        simp only [← List.replicate_succ' k now0]
        exact ih (k + 1) (by omega) (by omega)
      · have hkR : R = k := by omega
        subst hkR
        have hm : m = 0 := by omega
        subst hm
        rw [runAdmits, admit_full R now0 0 hR]
        simp only [runAdmits]

/-- C3: for a model with `rpm = R`, issuing `R + 1` back-to-back admit calls
starting at time `now0` admits the first `R` immediately at `now0` and delays
the `(R+1)`-th exactly until `now0 + 60000`, the instant at which the first
`R` recorded timestamps fall outside the trailing 60-second window
(`waitTime = max(0, oldest + 60000 - now)`, then the whole check re-runs);
and no trailing 60-second window ever contains more than `R` of the recorded
timestamps. -/
theorem rateLimiter_R_plus_one (R now0 : Nat) (hR : 0 < R) :
    runAdmits R 2 (R + 1) [] now0 =
      some (List.replicate R now0 ++ [now0 + 60000]) ∧
    (∀ t ∈ List.replicate R now0, ¬ now0 + 60000 < t + 60000) ∧
    ∀ w : Nat,
      ((List.replicate R now0 ++ [now0 + 60000]).filter
        (fun t => w < t + 60000 && t ≤ w)).length ≤ R := by
  refine ⟨?_, ?_, ?_⟩
  · have h := runAdmits_fill R now0 hR (R + 1) 0 (by omega) (by omega)
    simpa using h
  · intro t ht
    have h := List.eq_of_mem_replicate ht
    subst h
    omega
  · intro w
    rw [List.filter_append]
    by_cases hw : now0 + 60000 ≤ w
    · have h1 : (List.replicate R now0).filter
          (fun t => w < t + 60000 && t ≤ w) = [] := by
        rw [List.filter_eq_nil_iff]
        intro a ha
        have h := List.eq_of_mem_replicate ha
        subst h
        simp only [Bool.and_eq_true, decide_eq_true_eq, not_and]
        omega
      rw [h1]
      simp only [List.nil_append]
      calc ([now0 + 60000].filter (fun t => w < t + 60000 && t ≤ w)).length
          ≤ [now0 + 60000].length := List.length_filter_le _ _
        _ = 1 := rfl
        _ ≤ R := hR
    · have h2 : [now0 + 60000].filter (fun t => w < t + 60000 && t ≤ w) = [] := by
        rw [List.filter_eq_nil_iff]
        intro a ha
        simp only [List.mem_singleton] at ha
        subst ha
        simp only [Bool.and_eq_true, decide_eq_true_eq, not_and]
        omega
      rw [h2, List.append_nil]
      calc ((List.replicate R now0).filter (fun t => w < t + 60000 && t ≤ w)).length
          ≤ (List.replicate R now0).length := List.length_filter_le _ _
        _ = R := List.length_replicate R now0

/-- Witness for `rateLimiter_R_plus_one` at `R = 2`, `now0 = 5`. -/
theorem rateLimiter_R_plus_one_witness :
    runAdmits 2 2 3 [] 5 = some [5, 5, 60005] ∧
    (∀ t ∈ List.replicate 2 5, ¬ (5 : Nat) + 60000 < t + 60000) := by
  have h := rateLimiter_R_plus_one 2 5 (by decide)
  exact ⟨h.1, h.2.1⟩

/-- Observable calls of the dispatch pipeline: `admit` is one invocation of
`checkRateLimits`, `netCall` one `axios.post` attempt, `record` one
invocation of `trackRequest`. -/
inductive Event
  | admitEv (model : String)
  | netCall
  | record (model : String)
deriving DecidableEq, Repr

/-- Outcome of one network attempt (one `axios.post`).  `ok2xx none` is a
2xx response missing `choices[0].message` (the code still records it before
noticing); the token-limit constructor stands for a 400 whose error message
contains `maximum context length`; usage token counts are not modelled since
no claim inspects the numbers passed to `trackRequest`. -/
inductive NetResult
  | ok2xx (content : Option String)
  | http400TokenLimit (msg : String)
  | http429 (retryAfter : Nat)
  | httpOther (code : Nat) (msg : String)
  | noResponse
  | setupError (msg : String)
deriving DecidableEq, Repr

/-- `callMonicaApi`'s attempt loop (monicaService.js:499-665): per attempt it
calls `checkRateLimits` (admit), posts (netCall); on a 2xx it calls
`trackRequest` (record) and then either returns the extracted content or
throws `Unexpected API response format`; on a 429 it waits and re-enters the
whole function (config check included — constant, so equivalent to recursing
here); every other failure throws without recording.  An exhausted script is
the unbounded-429 divergence, `none`. -/
def callApiGo (model : String) : List NetResult → Option (List Event × Except String String)
  | [] => none
  | r :: rest =>
      match r with
      | NetResult.ok2xx content =>
          match content with
          | some text =>
              some ([Event.admitEv model, Event.netCall, Event.record model],
                Except.ok text)
          | none =>
              some ([Event.admitEv model, Event.netCall, Event.record model],
                Except.error "Unexpected API response format")
      | NetResult.http400TokenLimit msg =>
          some ([Event.admitEv model, Event.netCall],
            Except.error ("Token limit exceeded: " ++ msg))
      | NetResult.http429 _ =>
          match callApiGo model rest with
          | none => none
          | some (evs, out) =>
              some (Event.admitEv model :: Event.netCall :: evs, out)
      | NetResult.httpOther code msg =>
          some ([Event.admitEv model, Event.netCall],
            Except.error ("API error: " ++ toString code ++ " - " ++ msg))
      | NetResult.noResponse =>
          some ([Event.admitEv model, Event.netCall],
            Except.error "No response received from API")
      | NetResult.setupError msg =>
          some ([Event.admitEv model, Event.netCall], Except.error msg)

/-- `callMonicaApi` entry: the configuration check
(monicaService.js:503-509) precedes everything; a missing key or endpoint
throws before any admit or network activity. -/
def callMonicaApi (cfg : Bool) (model : String) (net : List NetResult) :
    Option (List Event × Except String String) :=
  if cfg then callApiGo model net
  else some ([], Except.error "Monica API key or endpoint not configured")

/-- The linear extrapolation of monicaService.js:465-466:
`startTime + (Date.now() - startTime) / (i + 1) * chunks.length`,
in exact rational arithmetic. -/
def extrapolate (startTime now chunksDone total : Nat) : ℚ :=
  (startTime : ℚ) + ((now : ℚ) - (startTime : ℚ)) / (chunksDone : ℚ) * (total : ℚ)

/-- Progress update after a successful chunk (monicaService.js:462-467):
sets `processedChunks` and recomputes `estimatedEndTime`.  (`startTime` is
always set by `processFile` before the loop runs; `getD 0` totalises the
`Option`.) -/
def chunkSuccessUpdate (now i total : Nat) (p : ProgressState) : ProgressState :=
  { p with processedChunks := i + 1
           estimatedEndTime := some (extrapolate (p.startTime.getD 0) now (i + 1) total) }

/-- Progress update after a failed chunk (monicaService.js:480-482): only
`processedChunks` is set. -/
def chunkFailureUpdate (i : Nat) (p : ProgressState) : ProgressState :=
  { p with processedChunks := i + 1 }

/-- The inline placeholder pushed for a failed chunk
(monicaService.js:477). -/
def errorPlaceholder (msg : String) : String :=
  "[Error processing this chunk: " ++ msg ++ "]"

/-- The joiner of monicaService.js:487. -/
def chunkSeparator : String := "\n\n Next Chunk \n\n"

/-- Scripted environment of the chunk loop: configuration flag, per-chunk
network script, and the `Date.now()` reading at chunk `i`'s progress
update. -/
structure ChunkEnv where
  cfg : Bool
  net : Nat → List NetResult
  time : Nat → Nat

/-- The chunk loop of `processLargeFile` (monicaService.js:446-484): for each
chunk, `checkRateLimits` (the loop's own admit), then `callMonicaApi`; a
success pushes the response and runs `chunkSuccessUpdate`; a caught error
pushes the placeholder and runs `chunkFailureUpdate`; iteration always
continues to the next chunk — the loop body contains no cancellation
check. -/
def chunkLoop (env : ChunkEnv) (model : String) (total : Nat) :
    Nat → List String → ProgressState →
    Option (List String × ProgressState × List Event)
  | _, [], p => some ([], p, [])
  | i, _chunk :: rest, p =>
      match callMonicaApi env.cfg model (env.net i) with
      | none => none
      | some (evs, Except.ok text) =>
          (chunkLoop env model total (i + 1) rest
              (chunkSuccessUpdate (env.time i) i total p)).map
            (fun r => (text :: r.1, r.2.1, (Event.admitEv model :: evs) ++ r.2.2))
      | some (evs, Except.error msg) =>
          (chunkLoop env model total (i + 1) rest (chunkFailureUpdate i p)).map
            (fun r => (errorPlaceholder msg :: r.1, r.2.1,
              (Event.admitEv model :: evs) ++ r.2.2))

/-- `processLargeFile` (monicaService.js:416-491): split (spec-modelled, see
`splitChunks`), publish `totalChunks`, run the loop, join the responses. -/
def processLargeFile (env : ChunkEnv) (fileContent prompt model : String)
    (maxTokensPerChunk : Nat) (p : ProgressState) :
    Option (String × ProgressState × List Event) :=
  let charsPerChunk := maxTokensPerChunk * 4
  let chunks := (splitChunks charsPerChunk fileContent.data).map (fun l => String.mk l)
  let p1 := { p with totalChunks := chunks.length, processedChunks := 0 }
  (chunkLoop env model chunks.length 0 chunks p1).map
    (fun r => (String.intercalate chunkSeparator r.1, r.2.1, r.2.2))

/-- `trackFileProcessing` (monicaService.js:102-125): idempotent per base
name; increments `currentFileNumber` capped at `totalFiles` for a new
name. -/
def trackFileProcessing (fileName : String) (p : ProgressState) :
    Nat × ProgressState :=
  if p.processedFiles.contains fileName then (p.currentFileNumber, p)
  else
    (min (p.currentFileNumber + 1) p.totalFiles,
      { p with processedFiles := fileName :: p.processedFiles
               currentFileNumber := min (p.currentFileNumber + 1) p.totalFiles
               currentFile := some fileName })

/-- `processingHistory.slice(-9)`: the last nine entries (all of them when
fewer). -/
def keepLast9 (l : List HistoryEntry) : List HistoryEntry :=
  l.drop (l.length - 9)

/-- `model || process.env.DEFAULT_MODEL || 'gpt-4o'`
(monicaService.js:308). -/
def selectModel (model defaultModel : String) : String :=
  if model = "" then (if defaultModel = "" then "gpt-4o" else defaultModel)
  else model

/-- Scripted environment of one `processFile` invocation: registry, file
read/write oracles, API configuration and network scripts, the default-model
environment variable ("" = unset), and the clock readings the code takes. -/
structure FileEnv where
  registry : List ModelDescriptor
  readResult : Except String String
  writeResult : String → Except String Unit
  cfg : Bool
  net : Nat → List NetResult
  defaultModel : String
  tStart : Nat
  timeChunk : Nat → Nat
  tEnd : Nat

/-- The catch block of `processFile` (monicaService.js:371-405): status
`error`, the error message recorded, one history entry (success=false, model
`model || 'default'`), and the generic re-raise. -/
def processFileCatch (env : FileEnv) (fileName model msg : String)
    (p : ProgressState) : ProgressState × Except String String :=
  ({ p with status := Status.error
            error := some msg
            processingHistory := keepLast9 p.processingHistory ++
              [{ file := fileName
                 model := if model = "" then "default" else model
                 duration := env.tEnd - env.tStart
                 timestamp := env.tEnd
                 success := false
                 errMsg := some msg }] },
    Except.error ("Failed to process file: " ++ msg))

/-- The tail of `processFile`'s try block (monicaService.js:343-370): write
the response, mark completed, append the success history entry; a write
failure falls to the catch block. -/
def processFileFinish (env : FileEnv)
    (fileName outputPath selectedModel model response : String)
    (p : ProgressState) : ProgressState × Except String String :=
  match env.writeResult response with
  | Except.error msg => processFileCatch env fileName model msg p
  | Except.ok _ =>
      ({ p with status := Status.completed
                error := none
                processingHistory := keepLast9 p.processingHistory ++
                  [{ file := fileName
                     model := selectedModel
                     duration := env.tEnd - env.tStart
                     timestamp := env.tEnd
                     success := true
                     errMsg := none }] },
        Except.ok outputPath)

/-- The progress state `processFile` publishes on entry
(monicaService.js:281-290): `trackFileProcessing` followed by the
`processing` update with cleared chunk counters and error. -/
def startState (env : FileEnv) (fileName : String) (p : ProgressState) :
    ProgressState :=
  { (trackFileProcessing fileName p).2 with
    status := Status.processing
    startTime := some env.tStart
    totalChunks := 0
    processedChunks := 0
    error := none }

/-- `processFile` (monicaService.js:277-406): track the file, publish
`processing`, read, resolve the model's token limit, take 80% as the
per-chunk token budget, compare the `length/4` token estimate against it,
then either the single-call path (`totalChunks := 1`) or the chunked path;
finally write and record the outcome.  Any error escaping read, the single
API call or the write lands in `processFileCatch`. -/
def processFile (env : FileEnv) (fileName outputPath prompt model : String)
    (p : ProgressState) :
    Option (ProgressState × List Event × Except String String) :=
  let p1 := startState env fileName p
  match env.readResult with
  | Except.error msg =>
      let r := processFileCatch env fileName model msg p1
      some (r.1, [], r.2)
  | Except.ok fileContent =>
      let selectedModel := selectModel model env.defaultModel
      let maxTokensPerChunk := getModelTokenLimit env.registry selectedModel * 4 / 5
      if fileContent.length > 4 * maxTokensPerChunk then
        match processLargeFile ⟨env.cfg, env.net, env.timeChunk⟩ fileContent prompt
            selectedModel maxTokensPerChunk p1 with
        | none => none
        | some (response, p2, evs) =>
            let r := processFileFinish env fileName outputPath selectedModel model
              response p2
            some (r.1, evs, r.2)
      else
        let p2 := { p1 with totalChunks := 1, processedChunks := 0 }
        match callMonicaApi env.cfg selectedModel (env.net 0) with
        | none => none
        | some (evs, Except.error msg) =>
            let r := processFileCatch env fileName model msg p2
            some (r.1, evs, r.2)
        | some (evs, Except.ok response) =>
            let p3 := { p2 with processedChunks := 1 }
            let r := processFileFinish env fileName outputPath selectedModel model
              response p3
            some (r.1, evs, r.2)

/-- C9: `cancel()` takes effect only while status is `processing`, where it
sets `cancelled := true`, status `cancelled` and the explanatory error
message; for every other status it returns the progress state entirely
unchanged. -/
theorem cancelProcessing_spec (p : ProgressState) :
    (p.status = Status.processing →
      cancelProcessing p =
        { p with cancelled := true
                 status := Status.cancelled
                 error := some "Processing cancelled by user" }) ∧
    (p.status ≠ Status.processing → cancelProcessing p = p) := by
  constructor
  · intro h
    simp [cancelProcessing, h]
  · intro h
    simp [cancelProcessing, h]

/-- Witness for `cancelProcessing_spec`: a no-op on the idle baseline, the
full effect on a processing state. -/
theorem cancelProcessing_spec_witness :
    cancelProcessing resetState = resetState ∧
    cancelProcessing { resetState with status := Status.processing } =
      { resetState with status := Status.cancelled
                        cancelled := true
                        error := some "Processing cancelled by user" } := by
  constructor
  · exact (cancelProcessing_spec resetState).2 (by decide)
  · have h := (cancelProcessing_spec
      { resetState with status := Status.processing }).1 rfl
    rw [h]

/-- C7 counterexample: the model key "zzz" has no registry entry (the
registry here is empty, so `getModelInfo` misses), yet `trackRequest` is not
a no-op for it: it creates the window and appends the timestamp and the
token pair.  Only `checkRateLimits` ignores unknown models;
`trackRequest` skips only a falsy (empty) key. -/
theorem trackRequest_unknown_key_appends :
    getModelInfo [] "zzz" = none ∧
    trackRequest 1000 "zzz" 8 4 [] =
      [("zzz", { requests := [1000], tokens := [(1000, 12)] })] ∧
    trackRequest 1000 "zzz" 8 4 [] ≠ [] := by
  refine ⟨rfl, ?_, ?_⟩
  · simp only [trackRequest, RateState.lookup, RateState.store, List.find?,
      if_neg (by decide : ¬ ("zzz" : String) = "")]
    norm_num
  · simp [trackRequest, RateState.lookup, RateState.store, List.find?]

/-- C7 amended: `record` (`trackRequest`) is a no-op only for an empty
(falsy) model key; for any non-empty key — whether or not the registry knows
it — it appends `now` to the request list and `(now, inputTokens +
outputTokens)` to the token list, creating the window on first use. -/
theorem trackRequest_spec (now : Nat) (modelKey : String)
    (inputTokens outputTokens : ℚ) (rl : RateState) :
    (modelKey = "" →
      trackRequest now modelKey inputTokens outputTokens rl = rl) ∧
    (modelKey ≠ "" →
      trackRequest now modelKey inputTokens outputTokens rl =
        rl.store modelKey
          { requests := ((rl.lookup modelKey).getD ⟨[], []⟩).requests ++ [now]
            tokens := ((rl.lookup modelKey).getD ⟨[], []⟩).tokens ++
              [(now, inputTokens + outputTokens)] }) := by
  constructor
  · intro h
    simp [trackRequest, h]
  · intro h
    simp [trackRequest, h]

/-- Witness for `trackRequest_spec`: the empty key is a no-op, a non-empty
key appends. -/
theorem trackRequest_spec_witness :
    trackRequest 7 "" 1 2 [] = [] ∧
    trackRequest 7 "m" 1 2 [] = [("m", { requests := [7], tokens := [(7, 3)] })] := by
  constructor
  · exact (trackRequest_spec 7 "" 1 2 []).1 rfl
  · have h := (trackRequest_spec 7 "m" 1 2 []).2 (by decide)
    rw [h]
    simp only [RateState.lookup, RateState.store, List.find?, Option.getD]
    norm_num

/-- C8 amended: after every chunk attempt `processedChunks` is set to the
number of chunks attempted so far; `estimatedEndTime` is recomputed as
`startTime + (elapsed / chunksDoneSoFar) * totalChunks` only after a
successful attempt — the failure branch of the loop updates
`processedChunks` alone and leaves `estimatedEndTime` unchanged. -/
theorem chunk_update_behavior (env : ChunkEnv) (model : String)
    (total i : Nat) (chunk : String) (rest : List String) (p : ProgressState)
    (evs : List Event) :
    (∀ text, callMonicaApi env.cfg model (env.net i) = some (evs, Except.ok text) →
      chunkLoop env model total i (chunk :: rest) p =
        (chunkLoop env model total (i + 1) rest
            (chunkSuccessUpdate (env.time i) i total p)).map
          (fun r => (text :: r.1, r.2.1, (Event.admitEv model :: evs) ++ r.2.2))) ∧
    (∀ msg, callMonicaApi env.cfg model (env.net i) = some (evs, Except.error msg) →
      chunkLoop env model total i (chunk :: rest) p =
        (chunkLoop env model total (i + 1) rest (chunkFailureUpdate i p)).map
          (fun r => (errorPlaceholder msg :: r.1, r.2.1,
            (Event.admitEv model :: evs) ++ r.2.2))) ∧
    (chunkSuccessUpdate (env.time i) i total p).processedChunks = i + 1 ∧
    (chunkSuccessUpdate (env.time i) i total p).estimatedEndTime =
      some (extrapolate (p.startTime.getD 0) (env.time i) (i + 1) total) ∧
    (chunkFailureUpdate i p).processedChunks = i + 1 ∧
    (chunkFailureUpdate i p).estimatedEndTime = p.estimatedEndTime := by
  refine ⟨?_, ?_, rfl, rfl, rfl, rfl⟩
  · intro text h
    simp only [chunkLoop, h]
  · intro msg h
    simp only [chunkLoop, h]

/-- Witness for `chunk_update_behavior`: one successful and one failing
single-chunk run, with the per-branch state updates visible. -/
theorem chunk_update_behavior_witness :
    chunkLoop ⟨true, fun _ => [NetResult.ok2xx (some "r")], fun _ => 50⟩
        "m" 1 0 ["c"] resetState =
      some (["r"], chunkSuccessUpdate 50 0 1 resetState,
        [Event.admitEv "m", Event.admitEv "m", Event.netCall, Event.record "m"]) ∧
    chunkLoop ⟨true, fun _ => [NetResult.noResponse], fun _ => 50⟩
        "m" 1 0 ["c"] resetState =
      some ([errorPlaceholder "No response received from API"],
        chunkFailureUpdate 0 resetState,
        [Event.admitEv "m", Event.admitEv "m", Event.netCall]) := by
  constructor
  · have h := (chunk_update_behavior
      ⟨true, fun _ => [NetResult.ok2xx (some "r")], fun _ => 50⟩ "m" 1 0 "c" []
      resetState [Event.admitEv "m", Event.netCall, Event.record "m"]).1 "r" rfl
    rw [h]
    rfl
  · have h := (chunk_update_behavior
      ⟨true, fun _ => [NetResult.noResponse], fun _ => 50⟩ "m" 1 0 "c" []
      resetState [Event.admitEv "m", Event.netCall]).2.1
      "No response received from API" rfl
    rw [h]
    rfl

/-- C8 counterexample: a two-chunk file in which both chunk attempts fail
("API error: 500 - boom").  After both attempts `processedChunks` is 2 but
`estimatedEndTime` is still `none` — it was never recomputed, although the
claim requires recomputation after every attempt, which would have produced
`some (extrapolate 100 200 2 2)`. -/
theorem chunk_failure_keeps_estimate :
    (processLargeFile
        ⟨true, fun _ => [NetResult.httpOther 500 "boom"], fun _ => 200⟩
        "abcdefgh" "p" "m" 1
        { resetState with status := Status.processing, startTime := some 100 }).map
      (fun r => (r.1, r.2.1.processedChunks, r.2.1.estimatedEndTime)) =
      some (errorPlaceholder "API error: 500 - boom" ++ chunkSeparator ++
        errorPlaceholder "API error: 500 - boom", 2, (none : Option ℚ)) ∧
    (none : Option ℚ) ≠ some (extrapolate 100 200 2 2) := by
  constructor
  · rfl
  · simp

/-- C4 (code bug): the chunk loop of `processLargeFile` contains no check of
the cancellation flag.  Here `cancel()` has already taken effect
(`cancelled = true`, status `cancelled`) before a two-chunk file's loop
runs, yet both chunks are processed — two network calls are made,
`processedChunks` reaches 2, and the joined output contains both chunk
responses instead of the partial result the claim describes. -/
theorem chunkLoop_ignores_cancel :
    (processLargeFile
        ⟨true, fun _ => [NetResult.ok2xx (some "out")], fun _ => 300⟩
        "abcdefgh" "p" "m" 1
        { resetState with status := Status.cancelled
                          cancelled := true
                          startTime := some 100 }).map
      (fun r => (r.1, r.2.1.processedChunks, r.2.1.cancelled,
        r.2.2.count Event.netCall)) =
      some ("out" ++ chunkSeparator ++ "out", 2, true, 2) := by
  rfl

/-- C5 counterexample: the trace of a single chunk attempt in the chunked
path.  `checkRateLimits` runs once in the loop body (monicaService.js:455)
and once more inside `callMonicaApi` (monicaService.js:520), so the one
network call of this attempt is preceded by two admit calls, not exactly
one as claimed. -/
theorem admit_twice_per_chunk_attempt :
    (chunkLoop ⟨true, fun _ => [NetResult.ok2xx (some "r")], fun _ => 0⟩
        "m" 1 0 ["c"] resetState).map
      (fun r => ((r.2.2.takeWhile (fun e => e ≠ Event.netCall)).count
        (Event.admitEv "m"))) = some 2 ∧ (2 : Nat) ≠ 1 := by
  constructor
  · rfl
  · simp

/-- The first non-429 entry of a network script: the attempt on which
`callMonicaApi` stops retrying. -/
def firstNon429 : List NetResult → Option NetResult
  | [] => none
  | NetResult.http429 _ :: rest => firstNon429 rest
  | r :: _ => some r

/-- Whether `trackRequest` fires for a script: exactly when the attempt the
client stops on is a 2xx response. -/
def isRecorded : Option NetResult → Bool
  | some (NetResult.ok2xx _) => true
  | _ => false

/-- C5 amended: inside `callMonicaApi` every network attempt (each 429 retry
included) is preceded by exactly one admit (the admit and network-call
counts agree), and record fires exactly once when the final attempt is a
2xx response and never after a retried 429; but the chunked path's loop
calls admit once more before invoking `callMonicaApi`, so each chunk
attempt is preceded by two admits in total. -/
theorem callApi_admit_record_discipline (model : String) (net : List NetResult)
    (evs : List Event) (out : Except String String)
    (h : callApiGo model net = some (evs, out)) :
    evs.count (Event.admitEv model) = evs.count Event.netCall ∧
    evs.count (Event.record model) =
      (if isRecorded (firstNon429 net) then 1 else 0) ∧
    ∀ (env : ChunkEnv) (total i : Nat) (p : ProgressState) (chunk : String),
      env.cfg = true → env.net i = net →
      (chunkLoop env model total i [chunk] p).map (fun r => r.2.2) =
        some (Event.admitEv model :: evs) := by
  refine ⟨?_, ?_, ?_⟩
  · induction net generalizing evs out with
    | nil => simp [callApiGo] at h
    | cons r rest ih =>
        cases r with
        | ok2xx content =>
            cases content with
            | some text =>
                rw [callApiGo] at h
                injection h with h
                injection h with h1 h2
                subst h1
                simp [List.count_cons]
            | none =>
                rw [callApiGo] at h
                injection h with h
                injection h with h1 h2
                subst h1
                simp [List.count_cons]
        | http400TokenLimit msg =>
            rw [callApiGo] at h
            injection h with h
            injection h with h1 h2
            subst h1
            simp [List.count_cons]
        | http429 retryAfter =>
            rw [callApiGo] at h
            cases hrec : callApiGo model rest with
            | none => rw [hrec] at h; exact absurd h (by simp)
            | some pr =>
                obtain ⟨evs', out'⟩ := pr
                rw [hrec] at h
                injection h with h
                injection h with h1 h2
                subst h1
                have := ih evs' out' hrec
                simp [List.count_cons, this]
        | httpOther code msg =>
            rw [callApiGo] at h
            injection h with h
            injection h with h1 h2
            subst h1
            simp [List.count_cons]
        | noResponse =>
            rw [callApiGo] at h
            injection h with h
            injection h with h1 h2
            subst h1
            simp [List.count_cons]
        | setupError msg =>
            rw [callApiGo] at h
            injection h with h
            injection h with h1 h2
            subst h1
            simp [List.count_cons]
  · induction net generalizing evs out with
    | nil => simp [callApiGo] at h
    | cons r rest ih =>
        cases r with
        | ok2xx content =>
            cases content with
            | some text =>
                rw [callApiGo] at h
                injection h with h
                injection h with h1 h2
                subst h1
                simp [List.count_cons, firstNon429, isRecorded]
            | none =>
                rw [callApiGo] at h
                injection h with h
                injection h with h1 h2
                subst h1
                simp [List.count_cons, firstNon429, isRecorded]
        | http400TokenLimit msg =>
            rw [callApiGo] at h
            injection h with h
            injection h with h1 h2
            subst h1
            simp [List.count_cons, firstNon429, isRecorded]
        | http429 retryAfter =>
            rw [callApiGo] at h
            cases hrec : callApiGo model rest with
            | none => rw [hrec] at h; exact absurd h (by simp)
            | some pr =>
                obtain ⟨evs', out'⟩ := pr
                rw [hrec] at h
                injection h with h
                injection h with h1 h2
                subst h1
                have := ih evs' out' hrec
                simp [List.count_cons, firstNon429, this]
        | httpOther code msg =>
            rw [callApiGo] at h
            injection h with h
            injection h with h1 h2
            subst h1
            simp [List.count_cons, firstNon429, isRecorded]
        | noResponse =>
            rw [callApiGo] at h
            injection h with h
            injection h with h1 h2
            subst h1
            simp [List.count_cons, firstNon429, isRecorded]
        | setupError msg =>
            rw [callApiGo] at h
            injection h with h
            injection h with h1 h2
            subst h1
            simp [List.count_cons, firstNon429, isRecorded]
  · intro env total i p chunk hcfg hnet
    have hcall : callMonicaApi env.cfg model (env.net i) = some (evs, out) := by
      rw [hcfg, hnet, callMonicaApi]
      simp [h]
    cases out with
    | ok text =>
        simp only [chunkLoop, hcall, Option.map_map]
        simp
    | error msg =>
        simp only [chunkLoop, hcall, Option.map_map]
        simp

/-- Witness for `callApi_admit_record_discipline`: a 429 followed by a 2xx;
two attempts, two admits inside the client, one record, and the chunk loop's
extra leading admit. -/
theorem callApi_admit_record_discipline_witness :
    ([Event.admitEv "m", Event.netCall, Event.admitEv "m", Event.netCall,
        Event.record "m"].count (Event.admitEv "m") =
      [Event.admitEv "m", Event.netCall, Event.admitEv "m", Event.netCall,
        Event.record "m"].count Event.netCall) ∧
    ([Event.admitEv "m", Event.netCall, Event.admitEv "m", Event.netCall,
        Event.record "m"].count (Event.record "m") =
      (if isRecorded (firstNon429 [NetResult.http429 3,
        NetResult.ok2xx (some "r")]) then 1 else 0)) ∧
    (chunkLoop ⟨true, fun _ => [NetResult.http429 3, NetResult.ok2xx (some "r")],
        fun _ => 0⟩ "m" 1 0 ["c"] resetState).map (fun r => r.2.2) =
      some (Event.admitEv "m" :: [Event.admitEv "m", Event.netCall, Event.admitEv "m",
        Event.netCall, Event.record "m"]) := by
  have h := callApi_admit_record_discipline "m"
    [NetResult.http429 3, NetResult.ok2xx (some "r")]
    [Event.admitEv "m", Event.netCall, Event.admitEv "m", Event.netCall,
      Event.record "m"] (Except.ok "r") rfl
  exact ⟨h.1, h.2.1, h.2.2 ⟨true, fun _ => [NetResult.http429 3,
    NetResult.ok2xx (some "r")], fun _ => 0⟩ 1 0 resetState "c" rfl rfl⟩

theorem trackFileProcessing_preserves (fileName : String) (p : ProgressState) :
    (trackFileProcessing fileName p).2.processingHistory = p.processingHistory ∧
    (trackFileProcessing fileName p).2.status = p.status := by
  rw [trackFileProcessing]
  split
  · exact ⟨rfl, rfl⟩
  · exact ⟨rfl, rfl⟩

theorem chunkLoop_preserves (env : ChunkEnv) (model : String) (total : Nat) :
    ∀ (chunks : List String) (i : Nat) (p : ProgressState)
      (resps : List String) (p' : ProgressState) (evs : List Event),
      chunkLoop env model total i chunks p = some (resps, p', evs) →
      p'.status = p.status ∧ p'.processingHistory = p.processingHistory := by
  intro chunks
  induction chunks with
  | nil =>
      intro i p resps p' evs h
      rw [chunkLoop] at h
      simp only [Option.some.injEq, Prod.mk.injEq] at h
      obtain ⟨-, h2, -⟩ := h
      rw [← h2]
      exact ⟨rfl, rfl⟩
  | cons c rest ih =>
      intro i p resps p' evs h
      rw [chunkLoop] at h
      cases hcall : callMonicaApi env.cfg model (env.net i) with
      | none => rw [hcall] at h; exact absurd h (by simp)
      | some pr =>
          obtain ⟨aevs, out⟩ := pr
          rw [hcall] at h
          cases out with
          | ok text =>
              cases hrec : chunkLoop env model total (i + 1) rest
                  (chunkSuccessUpdate (env.time i) i total p) with
              | none => rw [hrec] at h; exact absurd h (by simp)
              | some r' =>
                  obtain ⟨resps', p'', evs'⟩ := r'
                  rw [hrec] at h
                  simp only [Option.map_some', Option.some.injEq,
                    Prod.mk.injEq] at h
                  obtain ⟨-, h2, -⟩ := h
                  have hih := ih (i + 1)
                    (chunkSuccessUpdate (env.time i) i total p) resps' p'' evs' hrec
                  rw [← h2]
                  exact ⟨hih.1, hih.2⟩
          | error msg =>
              cases hrec : chunkLoop env model total (i + 1) rest
                  (chunkFailureUpdate i p) with
              | none => rw [hrec] at h; exact absurd h (by simp)
              | some r' =>
                  obtain ⟨resps', p'', evs'⟩ := r'
                  rw [hrec] at h
                  simp only [Option.map_some', Option.some.injEq,
                    Prod.mk.injEq] at h
                  obtain ⟨-, h2, -⟩ := h
                  have hih := ih (i + 1) (chunkFailureUpdate i p) resps' p'' evs' hrec
                  rw [← h2]
                  exact ⟨hih.1, hih.2⟩

theorem processLargeFile_preserves (env : ChunkEnv)
    (fileContent prompt model : String) (mtpc : Nat) (p : ProgressState)
    (response : String) (p' : ProgressState) (evs : List Event)
    (h : processLargeFile env fileContent prompt model mtpc p =
      some (response, p', evs)) :
    p'.status = p.status ∧ p'.processingHistory = p.processingHistory := by
  simp only [processLargeFile] at h
  cases hcl : chunkLoop env model
      (((splitChunks (mtpc * 4) fileContent.data).map (fun l => String.mk l)).length) 0
      ((splitChunks (mtpc * 4) fileContent.data).map (fun l => String.mk l))
      { p with
        totalChunks :=
          ((splitChunks (mtpc * 4) fileContent.data).map (fun l => String.mk l)).length
        processedChunks := 0 } with
  | none => rw [hcl] at h; exact absurd h (by simp)
  | some r' =>
      obtain ⟨resps', p'', evs'⟩ := r'
      rw [hcl] at h
      simp only [Option.map_some', Option.some.injEq, Prod.mk.injEq] at h
      obtain ⟨-, h2, -⟩ := h
      have hp := chunkLoop_preserves env model _ _ _ _ resps' p'' evs' hcl
      rw [← h2]
      exact ⟨hp.1, hp.2⟩

theorem processFileFinish_ok (env : FileEnv)
    (fileName outputPath selectedModel model response : String)
    (p : ProgressState) (u : Unit)
    (hw : env.writeResult response = Except.ok u) :
    processFileFinish env fileName outputPath selectedModel model response p =
      ({ p with status := Status.completed
                error := none
                processingHistory := keepLast9 p.processingHistory ++
                  [{ file := fileName
                     model := selectedModel
                     duration := env.tEnd - env.tStart
                     timestamp := env.tEnd
                     success := true
                     errMsg := none }] },
        Except.ok outputPath) := by
  rw [processFileFinish, hw]

theorem processFileFinish_err (env : FileEnv)
    (fileName outputPath selectedModel model response : String)
    (p : ProgressState) (msg : String)
    (hw : env.writeResult response = Except.error msg) :
    processFileFinish env fileName outputPath selectedModel model response p =
      processFileCatch env fileName model msg p := by
  rw [processFileFinish, hw]

theorem startState_history (env : FileEnv) (fileName : String)
    (p : ProgressState) :
    (startState env fileName p).processingHistory = p.processingHistory :=
  (trackFileProcessing_preserves fileName p).1

/-- C6: every terminating `processFile` invocation leaves exactly one
terminal status — `completed` on overall success, `error` on failure, both
within the claim's set {completed, error, cancelled} — and appends exactly
one history entry for the file: success=true on success, or success=false
together with status `error` and the error message recorded before the
generic `Failed to process file: …` re-raise. -/
theorem processFile_terminal_status_history (env : FileEnv)
    (fileName outputPath prompt model : String) (p p' : ProgressState)
    (evs : List Event) (out : Except String String)
    (h : processFile env fileName outputPath prompt model p =
      some (p', evs, out)) :
    ∃ e : HistoryEntry,
      p'.processingHistory = keepLast9 p.processingHistory ++ [e] ∧
      e.file = fileName ∧
      ((p'.status = Status.completed ∧ e.success = true ∧
          out = Except.ok outputPath) ∨
       (p'.status = Status.error ∧ e.success = false ∧
         ∃ msg, p'.error = some msg ∧ e.errMsg = some msg ∧
           out = Except.error ("Failed to process file: " ++ msg))) := by
  have htrack := trackFileProcessing_preserves fileName p
  simp only [processFile] at h
  split at h
  · rename_i msg heq
    simp only [Option.some.injEq, Prod.mk.injEq] at h
    obtain ⟨hp', hevs, hout⟩ := h
    subst hp'
    subst hout
    refine ⟨{ file := fileName
              model := if model = "" then "default" else model
              duration := env.tEnd - env.tStart
              timestamp := env.tEnd
              success := false
              errMsg := some msg }, ?_, rfl,
      Or.inr ⟨rfl, rfl, msg, rfl, rfl, rfl⟩⟩
    simp only [processFileCatch]
    rw [startState_history]
  · rename_i fileContent heq
    split at h
    · -- chunked path
      rename_i hbig
      split at h
      · exact Option.noConfusion h
      · rename_i response p2 evs2 heq2
        have hist2 : p2.processingHistory = p.processingHistory := by
          have hpr := (processLargeFile_preserves _ _ _ _ _ _ _ _ _ heq2).2
          rw [hpr]
          exact startState_history env fileName p
        cases hw : env.writeResult response with
        | ok u =>
            rw [processFileFinish_ok env fileName outputPath _ model response p2
              u hw] at h
            simp only [Option.some.injEq, Prod.mk.injEq] at h
            obtain ⟨hp', hevs, hout⟩ := h
            subst hp'
            subst hout
            refine ⟨{ file := fileName
                      model := selectModel model env.defaultModel
                      duration := env.tEnd - env.tStart
                      timestamp := env.tEnd
                      success := true
                      errMsg := none }, ?_, rfl, Or.inl ⟨rfl, rfl, rfl⟩⟩
            simp only []
            rw [hist2]
        | error msg =>
            rw [processFileFinish_err env fileName outputPath _ model response p2
              msg hw] at h
            simp only [Option.some.injEq, Prod.mk.injEq] at h
            obtain ⟨hp', hevs, hout⟩ := h
            subst hp'
            subst hout
            refine ⟨{ file := fileName
                      model := if model = "" then "default" else model
                      duration := env.tEnd - env.tStart
                      timestamp := env.tEnd
                      success := false
                      errMsg := some msg }, ?_, rfl,
              Or.inr ⟨rfl, rfl, msg, rfl, rfl, rfl⟩⟩
            simp only [processFileCatch]
            rw [hist2]
    · -- single-call path
      rename_i hbig
      split at h
      · exact Option.noConfusion h
      · rename_i evs0 msg heq2
        simp only [Option.some.injEq, Prod.mk.injEq] at h
        obtain ⟨hp', hevs, hout⟩ := h
        subst hp'
        subst hout
        refine ⟨{ file := fileName
                  model := if model = "" then "default" else model
                  duration := env.tEnd - env.tStart
                  timestamp := env.tEnd
                  success := false
                  errMsg := some msg }, ?_, rfl,
          Or.inr ⟨rfl, rfl, msg, rfl, rfl, rfl⟩⟩
        simp only [processFileCatch]
        rw [startState_history]
      · rename_i evs0 response heq2
        cases hw : env.writeResult response with
        | ok u =>
            rw [processFileFinish_ok env fileName outputPath _ model response _
              u hw] at h
            simp only [Option.some.injEq, Prod.mk.injEq] at h
            obtain ⟨hp', hevs, hout⟩ := h
            subst hp'
            subst hout
            refine ⟨{ file := fileName
                      model := selectModel model env.defaultModel
                      duration := env.tEnd - env.tStart
                      timestamp := env.tEnd
                      success := true
                      errMsg := none }, ?_, rfl, Or.inl ⟨rfl, rfl, rfl⟩⟩
            simp only []
            rw [startState_history]
        | error msg =>
            rw [processFileFinish_err env fileName outputPath _ model response _
              msg hw] at h
            simp only [Option.some.injEq, Prod.mk.injEq] at h
            obtain ⟨hp', hevs, hout⟩ := h
            subst hp'
            subst hout
            refine ⟨{ file := fileName
                      model := if model = "" then "default" else model
                      duration := env.tEnd - env.tStart
                      timestamp := env.tEnd
                      success := false
                      errMsg := some msg }, ?_, rfl,
              Or.inr ⟨rfl, rfl, msg, rfl, rfl, rfl⟩⟩
            simp only [processFileCatch]
            rw [startState_history]

/-- A concrete single-path environment: small file, one successful network
attempt, successful write. -/
def fileEnvOkSingle : FileEnv :=
  { registry := []
    readResult := Except.ok "hi"
    writeResult := fun _ => Except.ok ()
    cfg := true
    net := fun _ => [NetResult.ok2xx (some "r")]
    defaultModel := ""
    tStart := 10
    timeChunk := fun _ => 20
    tEnd := 30 }

/-- Final state of `processFile` on `fileEnvOkSingle`. -/
def singleRunFinal : ProgressState :=
  { currentFile := some "f"
    currentFileNumber := 0
    totalFiles := 0
    totalChunks := 1
    processedChunks := 1
    startTime := some 10
    estimatedEndTime := none
    status := Status.completed
    error := none
    processingHistory := [{ file := "f"
                            model := "m"
                            duration := 20
                            timestamp := 30
                            success := true
                            errMsg := none }]
    processedFiles := ["f"]
    cancelled := false }

/-- Witness for `processFile_terminal_status_history` at the concrete
single-path run. -/
theorem processFile_terminal_status_history_witness :
    ∃ e : HistoryEntry,
      singleRunFinal.processingHistory =
        keepLast9 resetState.processingHistory ++ [e] ∧
      e.file = "f" ∧
      ((singleRunFinal.status = Status.completed ∧ e.success = true ∧
          (Except.ok "o" : Except String String) = Except.ok "o") ∨
       (singleRunFinal.status = Status.error ∧ e.success = false ∧
         ∃ msg, singleRunFinal.error = some msg ∧ e.errMsg = some msg ∧
           (Except.ok "o" : Except String String) =
             Except.error ("Failed to process file: " ++ msg))) :=
  processFile_terminal_status_history fileEnvOkSingle "f" "o" "pr" "m"
    resetState singleRunFinal [Event.admitEv "m", Event.netCall, Event.record "m"]
    (Except.ok "o") rfl

theorem chunkLoop_all_fail (env : ChunkEnv) (model : String) (total : Nat)
    (hcfg : env.cfg = true)
    (hnet : ∀ i, env.net i = [NetResult.httpOther 500 "boom"]) :
    ∀ (chunks : List String) (i : Nat) (p : ProgressState),
      ∃ p' evs, chunkLoop env model total i chunks p =
        some (chunks.map (fun _ => errorPlaceholder "API error: 500 - boom"),
          p', evs) := by
  intro chunks
  induction chunks with
  | nil =>
      intro i p
      exact ⟨p, [], rfl⟩
  | cons c rest ih =>
      intro i p
      obtain ⟨p', evs, hrec⟩ := ih (i + 1) (chunkFailureUpdate i p)
      have hcall : callMonicaApi env.cfg model (env.net i) =
          some ([Event.admitEv model, Event.netCall],
            Except.error ("API error: " ++ toString (500 : Nat) ++ " - " ++ "boom")) := by
        rw [hcfg, hnet i]
        rfl
      refine ⟨p', (Event.admitEv model :: [Event.admitEv model, Event.netCall]) ++ evs, ?_⟩
      simp only [chunkLoop, hcall, hrec, Option.map_some', List.map_cons]
      rfl

/-- C10: in the chunked path a failed chunk is replaced in the output by the
inline placeholder and iteration continues; even when every chunk's API call
fails, `processLargeFile` returns the join of the placeholders and
`processFile` still terminates with status `completed` and a success=true
history entry — per-chunk failures never surface in the terminal status or
the history. -/
theorem all_chunks_fail_still_completed (env : FileEnv)
    (fileName outputPath prompt model content : String) (p : ProgressState)
    (hread : env.readResult = Except.ok content)
    (hcfg : env.cfg = true)
    (hnet : ∀ i, env.net i = [NetResult.httpOther 500 "boom"])
    (hwrite : ∀ s, env.writeResult s = Except.ok ())
    (hbig : content.length >
      4 * (getModelTokenLimit env.registry (selectModel model env.defaultModel) * 4 / 5)) :
    (∀ q : ProgressState, ∃ q' evs',
      processLargeFile ⟨env.cfg, env.net, env.timeChunk⟩ content prompt
          (selectModel model env.defaultModel)
          (getModelTokenLimit env.registry (selectModel model env.defaultModel) * 4 / 5) q =
        some (String.intercalate chunkSeparator
          (((splitChunks
              ((getModelTokenLimit env.registry (selectModel model env.defaultModel) * 4 / 5) * 4)
              content.data).map (fun l => String.mk l)).map
            (fun _ => errorPlaceholder "API error: 500 - boom")), q', evs')) ∧
    (∃ p' evs, processFile env fileName outputPath prompt model p =
      some (p', evs, Except.ok outputPath) ∧
      p'.status = Status.completed ∧
      ∃ e : HistoryEntry, p'.processingHistory =
        keepLast9 p.processingHistory ++ [e] ∧ e.success = true) := by
  constructor
  · intro q
    obtain ⟨q', evs', hcl⟩ := chunkLoop_all_fail
      ⟨env.cfg, env.net, env.timeChunk⟩ (selectModel model env.defaultModel)
      ((splitChunks
          ((getModelTokenLimit env.registry (selectModel model env.defaultModel) * 4 / 5) * 4)
          content.data).map (fun l => String.mk l)).length
      hcfg hnet
      ((splitChunks
          ((getModelTokenLimit env.registry (selectModel model env.defaultModel) * 4 / 5) * 4)
          content.data).map (fun l => String.mk l)) 0
      { q with
        totalChunks :=
          ((splitChunks
              ((getModelTokenLimit env.registry (selectModel model env.defaultModel) * 4 / 5) * 4)
              content.data).map (fun l => String.mk l)).length
        processedChunks := 0 }
    refine ⟨q', evs', ?_⟩
    simp only [processLargeFile, hcl, Option.map_some']
  · obtain ⟨q', evs', hcl⟩ := chunkLoop_all_fail
      ⟨env.cfg, env.net, env.timeChunk⟩ (selectModel model env.defaultModel)
      ((splitChunks
          ((getModelTokenLimit env.registry (selectModel model env.defaultModel) * 4 / 5) * 4)
          content.data).map (fun l => String.mk l)).length
      hcfg hnet
      ((splitChunks
          ((getModelTokenLimit env.registry (selectModel model env.defaultModel) * 4 / 5) * 4)
          content.data).map (fun l => String.mk l)) 0
      { startState env fileName p with
        totalChunks :=
          ((splitChunks
              ((getModelTokenLimit env.registry (selectModel model env.defaultModel) * 4 / 5) * 4)
              content.data).map (fun l => String.mk l)).length
        processedChunks := 0 }
    have hplf : processLargeFile ⟨env.cfg, env.net, env.timeChunk⟩ content prompt
        (selectModel model env.defaultModel)
        (getModelTokenLimit env.registry (selectModel model env.defaultModel) * 4 / 5)
        (startState env fileName p) =
      some (String.intercalate chunkSeparator
        (((splitChunks
            ((getModelTokenLimit env.registry (selectModel model env.defaultModel) * 4 / 5) * 4)
            content.data).map (fun l => String.mk l)).map
          (fun _ => errorPlaceholder "API error: 500 - boom")), q', evs') := by
      simp only [processLargeFile, hcl, Option.map_some']
    have hist2 : q'.processingHistory = p.processingHistory := by
      have hpr := (processLargeFile_preserves _ _ _ _ _ _ _ _ _ hplf).2
      rw [hpr]
      exact startState_history env fileName p
    refine ⟨{ q' with status := Status.completed
                      error := none
                      processingHistory := keepLast9 q'.processingHistory ++
                        [{ file := fileName
                           model := selectModel model env.defaultModel
                           duration := env.tEnd - env.tStart
                           timestamp := env.tEnd
                           success := true
                           errMsg := none }] }, evs', ?_, rfl, ?_⟩
    · simp only [processFile, hread]
      rw [if_pos hbig]
      simp only [hplf]
      rw [processFileFinish_ok env fileName outputPath
        (selectModel model env.defaultModel) model _ q' () (hwrite _)]
    · refine ⟨{ file := fileName
                model := selectModel model env.defaultModel
                duration := env.tEnd - env.tStart
                timestamp := env.tEnd
                success := true
                errMsg := none }, ?_, rfl⟩
      simp only []
      rw [hist2]

/-- A concrete chunked environment in which every network attempt fails. -/
def fileEnvAllFail : FileEnv :=
  { registry := [{ key := "m", tokenLimit := 2, rpm := 1, tpm := 1 }]
    readResult := Except.ok "abcde"
    writeResult := fun _ => Except.ok ()
    cfg := true
    net := fun _ => [NetResult.httpOther 500 "boom"]
    defaultModel := ""
    tStart := 10
    timeChunk := fun _ => 20
    tEnd := 30 }

/-- Witness for `all_chunks_fail_still_completed` at the concrete
environment. -/
theorem all_chunks_fail_still_completed_witness :
    (∀ q : ProgressState, ∃ q' evs',
      processLargeFile
          ⟨fileEnvAllFail.cfg, fileEnvAllFail.net, fileEnvAllFail.timeChunk⟩
          "abcde" "pr" (selectModel "m" fileEnvAllFail.defaultModel)
          (getModelTokenLimit fileEnvAllFail.registry
            (selectModel "m" fileEnvAllFail.defaultModel) * 4 / 5) q =
        some (String.intercalate chunkSeparator
          (((splitChunks
              ((getModelTokenLimit fileEnvAllFail.registry
                (selectModel "m" fileEnvAllFail.defaultModel) * 4 / 5) * 4)
              ("abcde" : String).data).map (fun l => String.mk l)).map
            (fun _ => errorPlaceholder "API error: 500 - boom")), q', evs')) ∧
    (∃ p' evs, processFile fileEnvAllFail "f" "o" "pr" "m" resetState =
      some (p', evs, Except.ok "o") ∧
      p'.status = Status.completed ∧
      ∃ e : HistoryEntry, p'.processingHistory =
        keepLast9 resetState.processingHistory ++ [e] ∧ e.success = true) :=
  all_chunks_fail_still_completed fileEnvAllFail "f" "o" "pr" "m" "abcde"
    resetState rfl rfl (fun _ => rfl) (fun _ => rfl) (by decide)

theorem chunkLoop_all_ok (env : ChunkEnv) (model : String) (total : Nat)
    (resp : Nat → String)
    (hcfg : env.cfg = true)
    (hnet : ∀ i, env.net i = [NetResult.ok2xx (some (resp i))]) :
    ∀ (chunks : List String) (i : Nat) (p : ProgressState),
      ∃ resps p' evs, chunkLoop env model total i chunks p =
        some (resps, p', evs) ∧
        evs.count Event.netCall = chunks.length := by
  intro chunks
  induction chunks with
  | nil =>
      intro i p
      exact ⟨[], p, [], rfl, rfl⟩
  | cons c rest ih =>
      intro i p
      obtain ⟨resps, p', evs, hrec, hcount⟩ :=
        ih (i + 1) (chunkSuccessUpdate (env.time i) i total p)
      have hcall : callMonicaApi env.cfg model (env.net i) =
          some ([Event.admitEv model, Event.netCall, Event.record model],
            Except.ok (resp i)) := by
        rw [hcfg, hnet i]
        rfl
      refine ⟨resp i :: resps, p',
        (Event.admitEv model ::
          [Event.admitEv model, Event.netCall, Event.record model]) ++ evs,
        ?_, ?_⟩
      · simp only [chunkLoop, hcall, hrec, Option.map_some']
      · rw [List.count_append, hcount]
        simp only [List.count_cons, List.count_nil, List.length_cons,
          show (if (Event.record model == Event.netCall) = true then 1 else 0)
            = 0 from rfl,
          show (if (Event.netCall == Event.netCall) = true then 1 else 0)
            = 1 from rfl,
          show (if (Event.admitEv model == Event.netCall) = true then 1 else 0)
            = 0 from rfl]
        omega

theorem chunkLoop_totalChunks (env : ChunkEnv) (model : String) (total : Nat) :
    ∀ (chunks : List String) (i : Nat) (p : ProgressState)
      (resps : List String) (p' : ProgressState) (evs : List Event),
      chunkLoop env model total i chunks p = some (resps, p', evs) →
      p'.totalChunks = p.totalChunks := by
  intro chunks
  induction chunks with
  | nil =>
      intro i p resps p' evs h
      rw [chunkLoop] at h
      simp only [Option.some.injEq, Prod.mk.injEq] at h
      obtain ⟨-, h2, -⟩ := h
      rw [← h2]
  | cons c rest ih =>
      intro i p resps p' evs h
      rw [chunkLoop] at h
      cases hcall : callMonicaApi env.cfg model (env.net i) with
      | none => rw [hcall] at h; exact absurd h (by simp)
      | some pr =>
          obtain ⟨aevs, out⟩ := pr
          rw [hcall] at h
          cases out with
          | ok text =>
              cases hrec : chunkLoop env model total (i + 1) rest
                  (chunkSuccessUpdate (env.time i) i total p) with
              | none => rw [hrec] at h; exact absurd h (by simp)
              | some r' =>
                  obtain ⟨resps', p'', evs'⟩ := r'
                  rw [hrec] at h
                  simp only [Option.map_some', Option.some.injEq,
                    Prod.mk.injEq] at h
                  obtain ⟨-, h2, -⟩ := h
                  rw [← h2]
                  exact ih (i + 1) (chunkSuccessUpdate (env.time i) i total p)
                    resps' p'' evs' hrec
          | error msg =>
              cases hrec : chunkLoop env model total (i + 1) rest
                  (chunkFailureUpdate i p) with
              | none => rw [hrec] at h; exact absurd h (by simp)
              | some r' =>
                  obtain ⟨resps', p'', evs'⟩ := r'
                  rw [hrec] at h
                  simp only [Option.map_some', Option.some.injEq,
                    Prod.mk.injEq] at h
                  obtain ⟨-, h2, -⟩ := h
                  rw [← h2]
                  exact ih (i + 1) (chunkFailureUpdate i p) resps' p'' evs' hrec

/-- C1: the trigger policy and call counts (spec-modelled chunker, since the
splitting code is elided in the source).  With `T` the model's token limit
and `MAX = floor(T*0.8)` (here `T*4/5`): when `length/4 ≤ MAX`
(equivalently `length ≤ 4*MAX`), `processFile` makes exactly one completion
call and leaves `totalChunks = 1`; otherwise it delegates to the chunked
path, makes exactly one completion call per chunk of the Chunker's output,
and every chunk is at most `MAX*4` characters. -/
theorem processFile_call_count (env : FileEnv)
    (fileName outputPath prompt model content : String) (p : ProgressState)
    (resp : Nat → String)
    (hread : env.readResult = Except.ok content)
    (hcfg : env.cfg = true)
    (hnet : ∀ i, env.net i = [NetResult.ok2xx (some (resp i))])
    (hwrite : ∀ s, env.writeResult s = Except.ok ())
    (hpos : 0 <
      getModelTokenLimit env.registry (selectModel model env.defaultModel) * 4 / 5) :
    (content.length ≤
        4 * (getModelTokenLimit env.registry (selectModel model env.defaultModel) * 4 / 5) →
      ∃ p' evs out,
        processFile env fileName outputPath prompt model p = some (p', evs, out) ∧
        evs.count Event.netCall = 1 ∧ p'.totalChunks = 1) ∧
    (content.length >
        4 * (getModelTokenLimit env.registry (selectModel model env.defaultModel) * 4 / 5) →
      ∃ p' evs out,
        processFile env fileName outputPath prompt model p = some (p', evs, out) ∧
        evs.count Event.netCall =
          ((splitChunks
            ((getModelTokenLimit env.registry (selectModel model env.defaultModel) * 4 / 5) * 4)
            content.data).map (fun l => String.mk l)).length ∧
        p'.totalChunks =
          ((splitChunks
            ((getModelTokenLimit env.registry (selectModel model env.defaultModel) * 4 / 5) * 4)
            content.data).map (fun l => String.mk l)).length ∧
        ∀ ch ∈ splitChunks
            ((getModelTokenLimit env.registry (selectModel model env.defaultModel) * 4 / 5) * 4)
            content.data,
          ch.length ≤
            (getModelTokenLimit env.registry (selectModel model env.defaultModel) * 4 / 5) * 4) := by
  constructor
  · intro hsmall
    have hno : ¬ content.length >
        4 * (getModelTokenLimit env.registry (selectModel model env.defaultModel) * 4 / 5) := by
      omega
    have hcall : callMonicaApi env.cfg (selectModel model env.defaultModel)
        (env.net 0) =
        some ([Event.admitEv (selectModel model env.defaultModel), Event.netCall,
          Event.record (selectModel model env.defaultModel)],
          Except.ok (resp 0)) := by
      rw [hcfg, hnet 0]
      rfl
    have hEq : processFile env fileName outputPath prompt model p =
        some ((processFileFinish env fileName outputPath
            (selectModel model env.defaultModel) model (resp 0)
            { startState env fileName p with
              totalChunks := 1, processedChunks := 1 }).1,
          [Event.admitEv (selectModel model env.defaultModel), Event.netCall,
            Event.record (selectModel model env.defaultModel)],
          (processFileFinish env fileName outputPath
            (selectModel model env.defaultModel) model (resp 0)
            { startState env fileName p with
              totalChunks := 1, processedChunks := 1 }).2) := by
      simp only [processFile, hread]
      rw [if_neg hno]
      simp only [hcall]
    refine ⟨_, _, _, hEq, rfl, ?_⟩
    rw [processFileFinish_ok env fileName outputPath
      (selectModel model env.defaultModel) model (resp 0) _ () (hwrite _)]
  · intro hbig
    obtain ⟨resps, q', evs', hcl, hcount⟩ := chunkLoop_all_ok
      ⟨env.cfg, env.net, env.timeChunk⟩ (selectModel model env.defaultModel)
      ((splitChunks
          ((getModelTokenLimit env.registry (selectModel model env.defaultModel) * 4 / 5) * 4)
          content.data).map (fun l => String.mk l)).length
      resp hcfg hnet
      ((splitChunks
          ((getModelTokenLimit env.registry (selectModel model env.defaultModel) * 4 / 5) * 4)
          content.data).map (fun l => String.mk l)) 0
      { startState env fileName p with
        totalChunks :=
          ((splitChunks
              ((getModelTokenLimit env.registry (selectModel model env.defaultModel) * 4 / 5) * 4)
              content.data).map (fun l => String.mk l)).length
        processedChunks := 0 }
    have hplf : processLargeFile ⟨env.cfg, env.net, env.timeChunk⟩ content prompt
        (selectModel model env.defaultModel)
        (getModelTokenLimit env.registry (selectModel model env.defaultModel) * 4 / 5)
        (startState env fileName p) =
        some (String.intercalate chunkSeparator resps, q', evs') := by
      simp only [processLargeFile, hcl, Option.map_some']
    have hEq : processFile env fileName outputPath prompt model p =
        some ((processFileFinish env fileName outputPath
            (selectModel model env.defaultModel) model
            (String.intercalate chunkSeparator resps) q').1,
          evs',
          (processFileFinish env fileName outputPath
            (selectModel model env.defaultModel) model
            (String.intercalate chunkSeparator resps) q').2) := by
      simp only [processFile, hread]
      rw [if_pos hbig]
      simp only [hplf]
    have htot : q'.totalChunks =
        ((splitChunks
            ((getModelTokenLimit env.registry (selectModel model env.defaultModel) * 4 / 5) * 4)
            content.data).map (fun l => String.mk l)).length := by
      have := chunkLoop_totalChunks
        ⟨env.cfg, env.net, env.timeChunk⟩ (selectModel model env.defaultModel)
        _ _ 0 _ resps q' evs' hcl
      rw [this]
    refine ⟨_, _, _, hEq, ?_, ?_, ?_⟩
    · rw [hcount]
    · rw [processFileFinish_ok env fileName outputPath
        (selectModel model env.defaultModel) model _ q' () (hwrite _)]
      exact htot
    · intro ch hch
      exact splitChunks_bound _ (by omega) content.data ch hch

/-- A concrete chunked environment in which every network attempt
succeeds. -/
def fileEnvOkChunks : FileEnv :=
  { registry := [{ key := "m", tokenLimit := 2, rpm := 1, tpm := 1 }]
    readResult := Except.ok "abcde"
    writeResult := fun _ => Except.ok ()
    cfg := true
    net := fun _ => [NetResult.ok2xx (some "r")]
    defaultModel := ""
    tStart := 10
    timeChunk := fun _ => 20
    tEnd := 30 }

/-- Witness for `processFile_call_count`: the single-call branch on a small
file and the chunked branch on a five-character file with a one-token
budget. -/
theorem processFile_call_count_witness :
    (∃ p' evs out,
      processFile fileEnvOkSingle "f" "o" "pr" "m" resetState =
        some (p', evs, out) ∧
      evs.count Event.netCall = 1 ∧ p'.totalChunks = 1) ∧
    (∃ p' evs out,
      processFile fileEnvOkChunks "f" "o" "pr" "m" resetState =
        some (p', evs, out) ∧
      evs.count Event.netCall =
        ((splitChunks
          ((getModelTokenLimit fileEnvOkChunks.registry
            (selectModel "m" fileEnvOkChunks.defaultModel) * 4 / 5) * 4)
          ("abcde" : String).data).map (fun l => String.mk l)).length ∧
      p'.totalChunks =
        ((splitChunks
          ((getModelTokenLimit fileEnvOkChunks.registry
            (selectModel "m" fileEnvOkChunks.defaultModel) * 4 / 5) * 4)
          ("abcde" : String).data).map (fun l => String.mk l)).length ∧
      ∀ ch ∈ splitChunks
          ((getModelTokenLimit fileEnvOkChunks.registry
            (selectModel "m" fileEnvOkChunks.defaultModel) * 4 / 5) * 4)
          ("abcde" : String).data,
        ch.length ≤
          (getModelTokenLimit fileEnvOkChunks.registry
            (selectModel "m" fileEnvOkChunks.defaultModel) * 4 / 5) * 4) :=
  ⟨(processFile_call_count fileEnvOkSingle "f" "o" "pr" "m" "hi" resetState
      (fun _ => "r") rfl rfl (fun _ => rfl) (fun _ => rfl) (by decide)).1
      (by decide),
   (processFile_call_count fileEnvOkChunks "f" "o" "pr" "m" "abcde" resetState
      (fun _ => "r") rfl rfl (fun _ => rfl) (fun _ => rfl) (by decide)).2
      (by decide)⟩
